import Mathlib

set_option linter.unusedSectionVars false

/-!
Shallow embedding of the topology-aggregation engine of the
TopologyFromTraceroute repository.

Two Python modules implement the same `Topology` class with slightly
different `add_neighb` methods:

* `topologyfromtraceroute.py` (namespace `TFT` below): `add_neighb`
  unconditionally appends the canonicalised index pair to `self.neighbs`.
* `topologyfromchains.py` (namespace `TFC` below): `add_neighb` guards the
  append with `if neighb not in self.neighbs:` but the guarded statement is
  `neighbs.append(neighb)` — the bare name `neighbs` is unbound, so reaching
  the append raises `NameError` after `self.nodes` has already been mutated.
  We model this fallible method with `Except`, the error value carrying the
  object state at the moment the exception propagates.

Nodes are values of an arbitrary type with decidable equality (Python uses
value equality on hashable values).  The neighbour list stores zero-based
indices into the node list, as in the source.
-/

/-- The `Topology` object: a list of nodes and a list of index pairs, the
direct translation of the `__slots__ = ['nodes', 'neighbs']` class shared by
both modules. -/
structure Topology (α : Type*) where
  nodes : List α
  neighbs : List (Nat × Nat)
deriving DecidableEq, Repr

/-- `Topology.__init__`: the empty topology. -/
def Topology.empty (α : Type*) : Topology α := ⟨[], []⟩

variable {α : Type*} [DecidableEq α]

/-- The node-insertion step shared by both `add_neighb` variants:
`if node not in self: self.nodes.append(node)`. -/
def insertNode (nodes : List α) (node : α) : List α :=
  if node ∈ nodes then nodes else nodes ++ [node]

/-- The canonicalisation `(idx1, idx2) if idx1 < idx2 else (idx2, idx1)`
appearing verbatim in both `add_neighb` variants. -/
def canonPair (idx1 idx2 : Nat) : Nat × Nat :=
  if idx1 < idx2 then (idx1, idx2) else (idx2, idx1)

/-- `Topology.query_node` (both modules): `self.nodes.index(node)`.  Python
`list.index` returns the first index holding an equal element and raises
`ValueError` when there is none; we model the fallible call with `Option`. -/
def Topology.query_node (t : Topology α) (node : α) : Option Nat :=
  if node ∈ t.nodes then some (t.nodes.indexOf node) else none

/-- The run-length collapse `[k for k, g in itertools.groupby(chain)]`
performed by both `add_chain` variants: consecutive equal elements become a
single occurrence. -/
def collapseRuns : List α → List α
  | [] => []
  | [a] => [a]
  | a :: b :: rest =>
      if a = b then collapseRuns (b :: rest) else a :: collapseRuns (b :: rest)

namespace TFT

/-- `topologyfromtraceroute.Topology.add_neighb`: insert the two nodes if
absent, look their indices up, and append the canonicalised pair to
`self.neighbs` unconditionally. -/
def add_neighb (t : Topology α) (node1 node2 : α) : Topology α :=
  let nodes2 := insertNode (insertNode t.nodes node1) node2
  let idx1 := nodes2.indexOf node1
  let idx2 := nodes2.indexOf node2
  ⟨nodes2, t.neighbs ++ [canonPair idx1 idx2]⟩

/-- The loop `for i in range(0, len(chain_uniq) - 1): self.add_neighb(...)`:
`add_neighb` on every pair of consecutive elements, left to right. -/
def addPairs (t : Topology α) : List α → Topology α
  | a :: b :: rest => addPairs (add_neighb t a b) (b :: rest)
  | _ => t

/-- `topologyfromtraceroute.Topology.add_chain`: run-length collapse, then
`add_neighb` on every consecutive pair. -/
def add_chain (t : Topology α) (chain : List α) : Topology α :=
  addPairs t (collapseRuns chain)

/-- `topologyfromtraceroute.Topology.add_chains`: map `func` over every chain
and ingest the chains in order. -/
def add_chains {β : Type*} (t : Topology α) (chains : List (List β))
    (func : β → α) : Topology α :=
  chains.foldl (fun acc c => add_chain acc (c.map func)) t

end TFT

namespace TFC

/-- `topologyfromchains.Topology.add_neighb`: after inserting the missing
nodes and canonicalising the pair, `if neighb not in self.neighbs:` guards
`neighbs.append(neighb)` — an unbound name, so the new-pair branch raises
`NameError`.  `.ok` is the normal return (pair already present, nothing
appended); `.error` carries the object state when the exception propagates:
`nodes` keeps the insertions already performed, `neighbs` is unchanged. -/
def add_neighb (t : Topology α) (node1 node2 : α) :
    Except (Topology α) (Topology α) :=
  let nodes2 := insertNode (insertNode t.nodes node1) node2
  let neighb := canonPair (nodes2.indexOf node1) (nodes2.indexOf node2)
  if neighb ∈ t.neighbs then Except.ok ⟨nodes2, t.neighbs⟩
  else Except.error ⟨nodes2, t.neighbs⟩

/-- The `add_chain` loop of `topologyfromchains.py`; an exception raised by
`add_neighb` aborts the remaining iterations and propagates. -/
def addPairs (t : Topology α) : List α → Except (Topology α) (Topology α)
  | a :: b :: rest =>
      match add_neighb t a b with
      | Except.ok t2 => addPairs t2 (b :: rest)
      | Except.error t2 => Except.error t2
  | _ => Except.ok t

/-- `topologyfromchains.Topology.add_chain`: run-length collapse, then the
`add_neighb` loop. -/
def add_chain (t : Topology α) (chain : List α) :
    Except (Topology α) (Topology α) :=
  addPairs t (collapseRuns chain)

end TFC

/-- The object state after a call that may have raised: on a normal return it
is the returned state, on an exception it is the mutated-in-place state the
exception left behind. -/
def stateOf (e : Except (Topology α) (Topology α)) : Topology α :=
  match e with
  | Except.ok t => t
  | Except.error t => t

/-- Whether the call raised. -/
def raised (e : Except (Topology α) (Topology α)) : Bool :=
  match e with
  | Except.ok _ => false
  | Except.error _ => true

/-- The checked variant of `TFT.add_neighb` keeping `query_node`'s
fallibility explicit: both lookups go through `query_node` on the object
state after the two insertions, exactly as the method body does, and a
failed lookup propagates as `none` (Python `ValueError`). -/
def add_neighb_checked (t : Topology α) (node1 node2 : α) :
    Option (Topology α) :=
  let nodes2 := insertNode (insertNode t.nodes node1) node2
  match Topology.query_node ⟨nodes2, t.neighbs⟩ node1,
        Topology.query_node ⟨nodes2, t.neighbs⟩ node2 with
  | some idx1, some idx2 => some ⟨nodes2, t.neighbs ++ [canonPair idx1 idx2]⟩
  | _, _ => none

/-- The state invariant claimed for the topology: every stored pair is
canonical (smaller index first) and both indices are valid zero-based
indices into `nodes`. -/
def TopInv (t : Topology α) : Prop :=
  ∀ p ∈ t.neighbs, p.1 ≤ p.2 ∧ p.2 < t.nodes.length

instance (t : Topology α) : Decidable (TopInv t) := by
  unfold TopInv
  infer_instance

/-- No stored pair has equal components (no self-edge at the index level). -/
def SelfFree (t : Topology α) : Prop :=
  ∀ p ∈ t.neighbs, p.1 ≠ p.2

instance (t : Topology α) : Decidable (SelfFree t) := by
  unfold SelfFree
  infer_instance

/-- Reading back a stored index pair as the unordered pair of nodes sitting
at its two indices (`d` is a default for out-of-range indices, never hit on
states satisfying `TopInv`). -/
def readEdge (nodes : List α) (d : α) (p : Nat × Nat) : Finset α :=
  {nodes.getD p.1 d, nodes.getD p.2 d}

/-- The set of nodes of a topology, forgetting insertion order. -/
def nodeFinset (t : Topology α) : Finset α := t.nodes.toFinset

/-- The set of node-level undirected edges of a topology, forgetting
insertion order, indices and multiplicity. -/
def edgeFinset (t : Topology α) (d : α) : Finset (Finset α) :=
  (t.neighbs.map (readEdge t.nodes d)).toFinset

/-- The nodes touched by the consecutive-pair loop on a collapsed chain:
every element that belongs to some consecutive pair. -/
def pairsNodeFinset : List α → Finset α
  | a :: b :: rest => insert a (insert b (pairsNodeFinset (b :: rest)))
  | _ => ∅

/-- The undirected node-level edges contributed by the consecutive-pair loop
on a collapsed chain. -/
def pairsEdgeFinset : List α → Finset (Finset α)
  | a :: b :: rest => insert {a, b} (pairsEdgeFinset (b :: rest))
  | _ => ∅

/-- The vertex loop of `write_Pajek`:
`for i, v in enumerate(self.nodes): print(" %d \x22%s\x22 " % (i + 1, str_fun(v)))`,
one output line per node, carrying the running zero-based index. -/
def vertexLines (str_fun : α → String) : Nat → List α → List String
  | _, [] => []
  | i, v :: rest =>
      (" " ++ toString (i + 1) ++ " \"" ++ str_fun v ++ "\" ")
        :: vertexLines str_fun (i + 1) rest

/-- The edge loop of `write_Pajek`:
`for i in self.neighbs: print(" %d  %d " % (i[0] + 1, i[1] + 1))`. -/
def edgeLines : List (Nat × Nat) → List String
  | [] => []
  | p :: rest =>
      (" " ++ toString (p.1 + 1) ++ "  " ++ toString (p.2 + 1) ++ " ")
        :: edgeLines rest

/-- `Topology.write_Pajek` (identical in both modules), modelled as the list
of lines printed to the output file, in order. -/
def write_Pajek (t : Topology α) (str_fun : α → String) : List String :=
  ("*Vertices " ++ toString t.nodes.length)
    :: (vertexLines str_fun 0 t.nodes ++ "*Edges" :: edgeLines t.neighbs)

/-! ### Basic lemmas about the shared building blocks -/

theorem insertNode_eq_append (nodes : List α) (n : α) :
    insertNode nodes n = nodes ++ (if n ∈ nodes then [] else [n]) := by
  unfold insertNode
  split <;> simp

theorem mem_insertNode {nodes : List α} {n x : α} :
    x ∈ insertNode nodes n ↔ x ∈ nodes ∨ x = n := by
  unfold insertNode
  split <;> rename_i h
  · constructor
    · exact fun hx => Or.inl hx
    · rintro (hx | rfl) <;> [exact hx; exact h]
  · simp

theorem self_mem_insertNode (nodes : List α) (n : α) : n ∈ insertNode nodes n :=
  mem_insertNode.mpr (Or.inr rfl)

theorem mem_insertNode_of_mem {nodes : List α} {x : α} (n : α)
    (h : x ∈ nodes) : x ∈ insertNode nodes n :=
  mem_insertNode.mpr (Or.inl h)

theorem insertNode_of_mem {nodes : List α} {n : α} (h : n ∈ nodes) :
    insertNode nodes n = nodes := if_pos h

theorem length_le_insertNode (nodes : List α) (n : α) :
    nodes.length ≤ (insertNode nodes n).length := by
  rw [insertNode_eq_append]
  simp

theorem canonPair_comm (i j : Nat) : canonPair i j = canonPair j i := by
  unfold canonPair
  rcases Nat.lt_trichotomy i j with h | h | h
  · rw [if_pos h, if_neg (Nat.lt_asymm h)]
  · subst h; simp
  · rw [if_neg (Nat.lt_asymm h), if_pos h]

theorem canonPair_fst_le (i j : Nat) : (canonPair i j).1 ≤ (canonPair i j).2 := by
  unfold canonPair
  split <;> rename_i h
  · exact Nat.le_of_lt h
  · exact Nat.le_of_not_lt h

theorem canonPair_snd_lt {i j m : Nat} (hi : i < m) (hj : j < m) :
    (canonPair i j).2 < m := by
  unfold canonPair
  split <;> assumption

theorem canonPair_ne {i j : Nat} (h : i ≠ j) :
    (canonPair i j).1 ≠ (canonPair i j).2 := by
  unfold canonPair
  split
  · exact h
  · exact h.symm

theorem canonPair_self (i : Nat) : canonPair i i = (i, i) := by
  unfold canonPair
  rw [if_neg (Nat.lt_irrefl i)]

theorem indexOf_lt_of_mem {l : List α} {a : α} (h : a ∈ l) :
    l.indexOf a < l.length :=
  List.indexOf_lt_length.mpr h

theorem getD_indexOf {l : List α} {a : α} (h : a ∈ l) (d : α) :
    l.getD (l.indexOf a) d = a := by
  rw [List.getD_eq_getElem l d (indexOf_lt_of_mem h)]
  exact List.getElem_indexOf (indexOf_lt_of_mem h)

theorem indexOf_ne_of_ne {l : List α} {a b : α} (ha : a ∈ l) (hb : b ∈ l)
    (h : a ≠ b) : l.indexOf a ≠ l.indexOf b := by
  intro heq
  apply h
  have h1 := getD_indexOf ha a
  have h2 := getD_indexOf hb a
  rw [heq] at h1
  rw [h1] at h2
  exact h2

theorem query_node_of_mem {t : Topology α} {n : α} (h : n ∈ t.nodes) :
    t.query_node n = some (t.nodes.indexOf n) := by
  unfold Topology.query_node
  rw [if_pos h]

theorem query_node_of_not_mem {t : Topology α} {n : α} (h : n ∉ t.nodes) :
    t.query_node n = none := by
  unfold Topology.query_node
  rw [if_neg h]

theorem TopInv_empty : TopInv (Topology.empty α) := by
  intro p hp
  simp [Topology.empty] at hp

theorem SelfFree_empty : SelfFree (Topology.empty α) := by
  intro p hp
  simp [Topology.empty] at hp

theorem readEdge_append {nodes : List α} (s : List α) (d : α)
    {p : Nat × Nat} (h1 : p.1 < nodes.length) (h2 : p.2 < nodes.length) :
    readEdge (nodes ++ s) d p = readEdge nodes d p := by
  unfold readEdge
  rw [List.getD_append _ _ _ _ h1, List.getD_append _ _ _ _ h2]

/-! ### Lemmas about `TFT.add_neighb` -/

namespace TFT

theorem add_neighb_def (t : Topology α) (a b : α) :
    add_neighb t a b =
      ⟨insertNode (insertNode t.nodes a) b,
       t.neighbs ++ [canonPair
         ((insertNode (insertNode t.nodes a) b).indexOf a)
         ((insertNode (insertNode t.nodes a) b).indexOf b)]⟩ := rfl

theorem mem_add_neighb_nodes {t : Topology α} {a b x : α} :
    x ∈ (add_neighb t a b).nodes ↔ x ∈ t.nodes ∨ x = a ∨ x = b := by
  rw [add_neighb_def]
  show x ∈ insertNode (insertNode t.nodes a) b ↔ _
  rw [mem_insertNode, mem_insertNode, or_assoc]

theorem a_mem_insert2 (nodes : List α) (a b : α) :
    a ∈ insertNode (insertNode nodes a) b :=
  mem_insertNode_of_mem _ (self_mem_insertNode _ _)

theorem b_mem_insert2 (nodes : List α) (a b : α) :
    b ∈ insertNode (insertNode nodes a) b :=
  self_mem_insertNode _ _

theorem insert2_eq_append (nodes : List α) (a b : α) :
    ∃ s, insertNode (insertNode nodes a) b = nodes ++ s := by
  rw [insertNode_eq_append, insertNode_eq_append, List.append_assoc]
  exact ⟨_, rfl⟩

theorem nodes_length_le_insert2 (nodes : List α) (a b : α) :
    nodes.length ≤ (insertNode (insertNode nodes a) b).length :=
  Nat.le_trans (length_le_insertNode nodes a)
    (length_le_insertNode (insertNode nodes a) b)

theorem TopInv_add_neighb {t : Topology α} (h : TopInv t) (a b : α) :
    TopInv (add_neighb t a b) := by
  rw [add_neighb_def]
  intro p hp
  rcases List.mem_append.mp hp with hold | hnew
  · obtain ⟨h1, h2⟩ := h p hold
    exact ⟨h1, Nat.lt_of_lt_of_le h2 (nodes_length_le_insert2 t.nodes a b)⟩
  · rw [List.mem_singleton] at hnew
    subst hnew
    refine ⟨canonPair_fst_le _ _, canonPair_snd_lt ?_ ?_⟩
    · exact indexOf_lt_of_mem (a_mem_insert2 t.nodes a b)
    · exact indexOf_lt_of_mem (b_mem_insert2 t.nodes a b)

theorem SelfFree_add_neighb {t : Topology α} (h : SelfFree t) {a b : α}
    (hab : a ≠ b) : SelfFree (add_neighb t a b) := by
  rw [add_neighb_def]
  intro p hp
  rcases List.mem_append.mp hp with hold | hnew
  · exact h p hold
  · rw [List.mem_singleton] at hnew
    subst hnew
    exact canonPair_ne (indexOf_ne_of_ne (a_mem_insert2 t.nodes a b)
      (b_mem_insert2 t.nodes a b) hab)

theorem nodeFinset_add_neighb (t : Topology α) (a b : α) :
    nodeFinset (add_neighb t a b) = nodeFinset t ∪ {a, b} := by
  ext x
  simp only [nodeFinset, List.mem_toFinset, Finset.mem_union,
    Finset.mem_insert, Finset.mem_singleton, mem_add_neighb_nodes]

theorem readEdge_canonPair {nodes : List α} {a b : α} (d : α)
    (ha : a ∈ nodes) (hb : b ∈ nodes) :
    readEdge nodes d (canonPair (nodes.indexOf a) (nodes.indexOf b)) =
      ({a, b} : Finset α) := by
  unfold readEdge canonPair
  split
  · rw [getD_indexOf ha, getD_indexOf hb]
  · rw [getD_indexOf ha, getD_indexOf hb]
    exact Finset.pair_comm _ _

theorem edgeFinset_add_neighb {t : Topology α} (h : TopInv t) (a b : α)
    (d : α) :
    edgeFinset (add_neighb t a b) d =
      edgeFinset t d ∪ {({a, b} : Finset α)} := by
  obtain ⟨s, hs⟩ := insert2_eq_append t.nodes a b
  have hmap : t.neighbs.map (readEdge (insertNode (insertNode t.nodes a) b) d)
      = t.neighbs.map (readEdge t.nodes d) := by
    apply List.map_congr_left
    intro p hp
    obtain ⟨h1, h2⟩ := h p hp
    rw [hs]
    exact readEdge_append s d (Nat.lt_of_le_of_lt h1 h2) h2
  rw [add_neighb_def]
  unfold edgeFinset
  simp only [List.map_append, List.toFinset_append, List.map_cons,
    List.map_nil, List.toFinset_cons, List.toFinset_nil]
  rw [hmap, readEdge_canonPair d (a_mem_insert2 t.nodes a b)
    (b_mem_insert2 t.nodes a b)]
  simp

end TFT

/-! ### Lemmas about the `add_chain` loop of the traceroute variant -/

namespace TFT

theorem addPairs_nil (t : Topology α) : addPairs t [] = t := rfl

theorem addPairs_single (t : Topology α) (a : α) : addPairs t [a] = t := rfl

theorem addPairs_cons_cons (t : Topology α) (a b : α) (rest : List α) :
    addPairs t (a :: b :: rest) = addPairs (add_neighb t a b) (b :: rest) :=
  rfl

theorem TopInv_addPairs {t : Topology α} (h : TopInv t) (l : List α) :
    TopInv (addPairs t l) := by
  induction l generalizing t with
  | nil => exact h
  | cons a tail ih =>
      cases tail with
      | nil => exact h
      | cons b rest =>
          rw [addPairs_cons_cons]
          exact ih (TopInv_add_neighb h a b)

theorem nodeFinset_addPairs (t : Topology α) (l : List α) :
    nodeFinset (addPairs t l) = nodeFinset t ∪ pairsNodeFinset l := by
  induction l generalizing t with
  | nil => simp [addPairs_nil, pairsNodeFinset]
  | cons a tail ih =>
      cases tail with
      | nil => simp [addPairs_single, pairsNodeFinset]
      | cons b rest =>
          rw [addPairs_cons_cons, ih, nodeFinset_add_neighb]
          show _ = nodeFinset t ∪ insert a (insert b (pairsNodeFinset (b :: rest)))
          rw [Finset.union_assoc]
          congr 1
          ext x
          simp only [Finset.mem_union, Finset.mem_insert, Finset.mem_singleton]
          tauto

theorem edgeFinset_addPairs {t : Topology α} (h : TopInv t) (l : List α)
    (d : α) :
    edgeFinset (addPairs t l) d = edgeFinset t d ∪ pairsEdgeFinset l := by
  induction l generalizing t with
  | nil => simp [addPairs_nil, pairsEdgeFinset]
  | cons a tail ih =>
      cases tail with
      | nil => simp [addPairs_single, pairsEdgeFinset]
      | cons b rest =>
          rw [addPairs_cons_cons, ih (TopInv_add_neighb h a b),
            edgeFinset_add_neighb h]
          show _ = edgeFinset t d ∪ insert ({a, b} : Finset α)
            (pairsEdgeFinset (b :: rest))
          rw [Finset.union_assoc]
          ext y
          simp only [Finset.mem_union, Finset.mem_insert, Finset.mem_singleton]

theorem TopInv_add_chain {t : Topology α} (h : TopInv t) (c : List α) :
    TopInv (add_chain t c) :=
  TopInv_addPairs h (collapseRuns c)

theorem nodeFinset_add_chain (t : Topology α) (c : List α) :
    nodeFinset (add_chain t c) =
      nodeFinset t ∪ pairsNodeFinset (collapseRuns c) :=
  nodeFinset_addPairs t (collapseRuns c)

theorem edgeFinset_add_chain {t : Topology α} (h : TopInv t) (c : List α)
    (d : α) :
    edgeFinset (add_chain t c) d =
      edgeFinset t d ∪ pairsEdgeFinset (collapseRuns c) :=
  edgeFinset_addPairs h (collapseRuns c) d

end TFT

/-! ### The run-length collapse produces no equal consecutive pair -/

theorem collapseRuns_cons (a : α) (l : List α) :
    ∃ l', collapseRuns (a :: l) = a :: l' := by
  induction l generalizing a with
  | nil => exact ⟨[], rfl⟩
  | cons b rest ih =>
      by_cases hab : a = b
      · subst hab
        show ∃ l', (if a = a then collapseRuns (a :: rest)
          else a :: collapseRuns (a :: rest)) = a :: l'
        rw [if_pos rfl]
        exact ih a
      · show ∃ l', (if a = b then collapseRuns (b :: rest)
          else a :: collapseRuns (b :: rest)) = a :: l'
        rw [if_neg hab]
        exact ⟨_, rfl⟩

theorem chain_ne_collapseRuns (c : List α) :
    List.Chain' (fun x y => x ≠ y) (collapseRuns c) := by
  induction c with
  | nil => exact List.chain'_nil
  | cons a tail ih =>
      cases tail with
      | nil => exact List.chain'_singleton a
      | cons b rest =>
          by_cases hab : a = b
          · subst hab
            show List.Chain' _ (if a = a then collapseRuns (a :: rest)
              else a :: collapseRuns (a :: rest))
            rw [if_pos rfl]
            exact ih
          · show List.Chain' _ (if a = b then collapseRuns (b :: rest)
              else a :: collapseRuns (b :: rest))
            rw [if_neg hab]
            obtain ⟨l', hl'⟩ := collapseRuns_cons b rest
            rw [hl']
            rw [hl'] at ih
            exact List.chain'_cons.mpr ⟨hab, ih⟩

namespace TFT

theorem SelfFree_addPairs {t : Topology α} (h : SelfFree t) {l : List α}
    (hl : List.Chain' (fun x y => x ≠ y) l) : SelfFree (addPairs t l) := by
  induction l generalizing t with
  | nil => exact h
  | cons a tail ih =>
      cases tail with
      | nil => exact h
      | cons b rest =>
          rw [addPairs_cons_cons]
          obtain ⟨hab, htail⟩ := List.chain'_cons.mp hl
          exact ih (SelfFree_add_neighb h hab) htail

theorem SelfFree_add_chain {t : Topology α} (h : SelfFree t) (c : List α) :
    SelfFree (add_chain t c) :=
  SelfFree_addPairs h (chain_ne_collapseRuns c)

end TFT

/-! ### Lemmas about the chains-variant methods -/

namespace TFC

theorem add_neighb_of_mem {t : Topology α} {a b : α}
    (h : canonPair ((insertNode (insertNode t.nodes a) b).indexOf a)
      ((insertNode (insertNode t.nodes a) b).indexOf b) ∈ t.neighbs) :
    add_neighb t a b =
      Except.ok ⟨insertNode (insertNode t.nodes a) b, t.neighbs⟩ := by
  unfold add_neighb
  rw [if_pos h]

theorem add_neighb_of_not_mem {t : Topology α} {a b : α}
    (h : canonPair ((insertNode (insertNode t.nodes a) b).indexOf a)
      ((insertNode (insertNode t.nodes a) b).indexOf b) ∉ t.neighbs) :
    add_neighb t a b =
      Except.error ⟨insertNode (insertNode t.nodes a) b, t.neighbs⟩ := by
  unfold add_neighb
  rw [if_neg h]

theorem raised_add_neighb_iff (t : Topology α) (a b : α) :
    raised (add_neighb t a b) = true ↔
      canonPair ((insertNode (insertNode t.nodes a) b).indexOf a)
        ((insertNode (insertNode t.nodes a) b).indexOf b) ∉ t.neighbs := by
  by_cases h : canonPair ((insertNode (insertNode t.nodes a) b).indexOf a)
      ((insertNode (insertNode t.nodes a) b).indexOf b) ∈ t.neighbs
  · rw [add_neighb_of_mem h]
    simp [raised, h]
  · rw [add_neighb_of_not_mem h]
    simp [raised, h]

theorem stateOf_add_neighb (t : Topology α) (a b : α) :
    stateOf (add_neighb t a b) =
      ⟨insertNode (insertNode t.nodes a) b, t.neighbs⟩ := by
  by_cases h : canonPair ((insertNode (insertNode t.nodes a) b).indexOf a)
      ((insertNode (insertNode t.nodes a) b).indexOf b) ∈ t.neighbs
  · rw [add_neighb_of_mem h]; rfl
  · rw [add_neighb_of_not_mem h]; rfl

theorem addPairs_match_cons (t : Topology α) (a b : α) (rest : List α) :
    addPairs t (a :: b :: rest) =
      match add_neighb t a b with
      | Except.ok t2 => addPairs t2 (b :: rest)
      | Except.error t2 => Except.error t2 := rfl

/-- The chains variant never records a new edge: whatever the outcome, the
`neighbs` list of the final object state equals the initial one. -/
theorem neighbs_stateOf_addPairs (t : Topology α) (l : List α) :
    (stateOf (addPairs t l)).neighbs = t.neighbs := by
  induction l generalizing t with
  | nil => rfl
  | cons a tail ih =>
      cases tail with
      | nil => rfl
      | cons b rest =>
          rw [addPairs_match_cons]
          by_cases h : canonPair ((insertNode (insertNode t.nodes a) b).indexOf a)
              ((insertNode (insertNode t.nodes a) b).indexOf b) ∈ t.neighbs
          · rw [add_neighb_of_mem h]
            exact ih _
          · rw [add_neighb_of_not_mem h]
            rfl

theorem neighbs_stateOf_add_chain (t : Topology α) (c : List α) :
    (stateOf (add_chain t c)).neighbs = t.neighbs :=
  neighbs_stateOf_addPairs t (collapseRuns c)

end TFC

/-! ### Exporter characterisation lemmas -/

theorem vertexLines_eq_map (str_fun : α → String) (i : Nat) (l : List α) :
    vertexLines str_fun i l =
      (List.enumFrom i l).map
        (fun p => " " ++ toString (p.1 + 1) ++ " \"" ++ str_fun p.2 ++ "\" ") := by
  induction l generalizing i with
  | nil => rfl
  | cons v rest ih =>
      show _ :: vertexLines str_fun (i + 1) rest = _ :: _
      rw [ih]

theorem edgeLines_eq_map (l : List (Nat × Nat)) :
    edgeLines l =
      l.map (fun p => " " ++ toString (p.1 + 1) ++ "  " ++ toString (p.2 + 1) ++ " ") := by
  induction l with
  | nil => rfl
  | cons p rest ih =>
      show _ :: edgeLines rest = _ :: _
      rw [ih]

/-! ### Concrete computations used by several claims -/

theorem add_neighb_empty_of_ne {x y : α} (h : x ≠ y) :
    TFT.add_neighb (Topology.empty α) x y = ⟨[x, y], [(0, 1)]⟩ := by
  have hyx : ¬ y = x := fun e => h e.symm
  have h1 : insertNode ([] : List α) x = [x] := by
    unfold insertNode
    rw [if_neg (List.not_mem_nil x)]
    rfl
  have h2 : insertNode [x] y = [x, y] := by
    unfold insertNode
    rw [if_neg (by simp [hyx])]
    rfl
  have i1 : List.indexOf x [x, y] = 0 := List.indexOf_cons_self x [y]
  have i2 : List.indexOf y [x, y] = 1 := by
    rw [List.indexOf_cons_ne _ h, List.indexOf_cons_self]
  rw [TFT.add_neighb_def]
  simp only [Topology.empty]
  rw [h1, h2, i1, i2]
  simp [canonPair]

theorem add_neighb_back {x y : α} (h : x ≠ y) (nb : List (Nat × Nat)) :
    TFT.add_neighb ⟨[x, y], nb⟩ y x = ⟨[x, y], nb ++ [(0, 1)]⟩ := by
  have h1 : insertNode [x, y] y = [x, y] := insertNode_of_mem (by simp)
  have h2 : insertNode [x, y] x = [x, y] := insertNode_of_mem (by simp)
  have i1 : List.indexOf x [x, y] = 0 := List.indexOf_cons_self x [y]
  have i2 : List.indexOf y [x, y] = 1 := by
    rw [List.indexOf_cons_ne _ h, List.indexOf_cons_self]
  rw [TFT.add_neighb_def]
  simp only []
  rw [h1, h2, i1, i2]
  simp [canonPair]

theorem collapseRuns_xxxy {x y : α} (h : x ≠ y) :
    collapseRuns [x, x, x, y] = [x, y] := by
  show (if x = x then collapseRuns [x, x, y] else x :: collapseRuns [x, x, y]) = _
  rw [if_pos rfl]
  show (if x = x then collapseRuns [x, y] else x :: collapseRuns [x, y]) = _
  rw [if_pos rfl]
  show (if x = y then collapseRuns [y] else x :: collapseRuns [y]) = _
  rw [if_neg h]
  rfl

theorem collapseRuns_xyx {x y : α} (h : x ≠ y) :
    collapseRuns [x, y, x] = [x, y, x] := by
  have hyx : ¬ y = x := fun e => h e.symm
  show (if x = y then collapseRuns [y, x] else x :: collapseRuns [y, x]) = _
  rw [if_neg h]
  show x :: (if y = x then collapseRuns [x] else y :: collapseRuns [x]) = _
  rw [if_neg hyx]
  rfl

/-! ## The claims -/

/-- C1: the claim states that chain ingestion is idempotent (re-ingesting a
chain adds no new edge entry).  Evaluating the code at the failing input
(empty topology, chain `[0, 1]` ingested twice) shows the opposite: the
traceroute variant appends the already-present canonical pair a second time
(nodes stay `[0, 1]` but `neighbs` becomes `[(0,1), (0,1)]`), and the chains
variant — whose membership guard shows deduplication is the intent — raises
`NameError` already on the first ingestion and records no edge at all. -/
theorem claim_C1_eval :
    (TFT.add_chain (TFT.add_chain (Topology.empty Nat) [0, 1]) [0, 1]).neighbs
      = [(0, 1), (0, 1)]
    ∧ (TFT.add_chain (Topology.empty Nat) [0, 1]).neighbs = [(0, 1)]
    ∧ (TFT.add_chain (TFT.add_chain (Topology.empty Nat) [0, 1]) [0, 1]).nodes
      = (TFT.add_chain (Topology.empty Nat) [0, 1]).nodes
    ∧ raised (TFC.add_chain (Topology.empty Nat) [0, 1]) = true
    ∧ stateOf (TFC.add_chain (Topology.empty Nat) [0, 1]) = ⟨[0, 1], []⟩ := by
  decide

/-- C2 counterexample: calling `add_neighb(n, n)` does not silently skip the
self-edge — the traceroute variant stores the pair `(0, 0)`, changing the
edges collection, contrary to the claim. -/
theorem claim_C2_counterexample :
    (TFT.add_neighb (Topology.empty Nat) 0 0).neighbs = [(0, 0)]
    ∧ ¬ (TFT.add_neighb (Topology.empty Nat) 0 0).neighbs
        = (Topology.empty Nat).neighbs := by
  decide

/-- C2 (amended): a direct call `add_neighb(n, n)` stores the self pair
`(i, i)` for `i` the index of `n` (it is not skipped); nevertheless, after
any sequence of `add_chain` calls starting from a state with no self pair,
`edges` contains no pair `(i, i)`, because the run-length collapse makes
consecutive chain nodes distinct. -/
theorem claim_C2 (t : Topology α) (n : α) (c : List α) (h : SelfFree t) :
    (TFT.add_neighb t n n).neighbs = t.neighbs
        ++ [((insertNode t.nodes n).indexOf n, (insertNode t.nodes n).indexOf n)]
    ∧ SelfFree (TFT.add_chain t c) := by
  constructor
  · rw [TFT.add_neighb_def, insertNode_of_mem (self_mem_insertNode t.nodes n),
      canonPair_self]
  · exact TFT.SelfFree_add_chain h c

/-- C2 witness: the amended theorem evaluated at the empty topology, node
`0` and chain `[0, 0, 1]`. -/
theorem claim_C2_witness :
    SelfFree (Topology.empty Nat)
    ∧ ((TFT.add_neighb (Topology.empty Nat) 0 0).neighbs
        = (Topology.empty Nat).neighbs
          ++ [((insertNode (Topology.empty Nat).nodes 0).indexOf 0,
               (insertNode (Topology.empty Nat).nodes 0).indexOf 0)]
      ∧ SelfFree (TFT.add_chain (Topology.empty Nat) [0, 0, 1])) :=
  ⟨by decide, claim_C2 (Topology.empty Nat) 0 [0, 0, 1] (by decide)⟩

/-- C3: in the deduplicating variant, `add_neighb` raises `NameError`
exactly when the canonical index pair is not already present in `neighbs`
(the guarded append targets the unbound name `neighbs`); in every outcome
the object keeps the node insertions performed earlier in the same call and
`neighbs` is unchanged, so this variant can never record a new edge —
in particular `add_chain` always leaves `neighbs` exactly as it was. -/
theorem claim_C3 (t : Topology α) (n1 n2 : α) (c : List α) :
    (raised (TFC.add_neighb t n1 n2) = true ↔
      canonPair ((insertNode (insertNode t.nodes n1) n2).indexOf n1)
        ((insertNode (insertNode t.nodes n1) n2).indexOf n2) ∉ t.neighbs)
    ∧ stateOf (TFC.add_neighb t n1 n2)
        = ⟨insertNode (insertNode t.nodes n1) n2, t.neighbs⟩
    ∧ (stateOf (TFC.add_chain t c)).neighbs = t.neighbs :=
  ⟨TFC.raised_add_neighb_iff t n1 n2, TFC.stateOf_add_neighb t n1 n2,
    TFC.neighbs_stateOf_add_chain t c⟩

/-- C4: `add_chain` run-length-collapses the chain and then adds one edge
per consecutive pair of the collapsed chain: for distinct `x` and `y`,
ingesting `[x, x, x, y]` into the empty topology yields exactly the nodes
`[x, y]` and the single canonical edge `(0, 1)` — no self-edge for `x`. -/
theorem claim_C4 (x y : α) (h : x ≠ y) :
    TFT.add_chain (Topology.empty α) [x, x, x, y] = ⟨[x, y], [(0, 1)]⟩ := by
  unfold TFT.add_chain
  rw [collapseRuns_xxxy h]
  show TFT.add_neighb (Topology.empty α) x y = _
  exact add_neighb_empty_of_ne h

/-- C4 witness: the theorem evaluated at `x = 0`, `y = 1`. -/
theorem claim_C4_witness :
    (0 : Nat) ≠ 1
    ∧ TFT.add_chain (Topology.empty Nat) [0, 0, 0, 1] = ⟨[0, 1], [(0, 1)]⟩ :=
  ⟨by decide, claim_C4 0 1 (by decide)⟩

/-- C5 counterexample: ingesting `[0, 1, 0]` into the empty topology leaves
an edges collection with two entries, not the single element the claim
asserts — the traceroute variant stores the canonical pair `(0, 1)` twice. -/
theorem claim_C5_counterexample :
    (TFT.add_chain (Topology.empty Nat) [0, 1, 0]).neighbs = [(0, 1), (0, 1)]
    ∧ ¬ (TFT.add_chain (Topology.empty Nat) [0, 1, 0]).neighbs.length = 1 := by
  decide

/-- C5 (amended): for distinct `x` and `y`, ingesting `[x, y, x]` into the
empty topology produces an edges list with exactly two entries, both equal
to the canonical pair `(0, 1)`; only the set of distinct stored edges has
exactly one element. -/
theorem claim_C5 (x y : α) (h : x ≠ y) :
    (TFT.add_chain (Topology.empty α) [x, y, x]).neighbs = [(0, 1), (0, 1)]
    ∧ ((TFT.add_chain (Topology.empty α) [x, y, x]).neighbs).toFinset
        = {(0, 1)} := by
  have hmain : (TFT.add_chain (Topology.empty α) [x, y, x]).neighbs
      = [(0, 1), (0, 1)] := by
    unfold TFT.add_chain
    rw [collapseRuns_xyx h]
    show (TFT.addPairs (TFT.add_neighb (Topology.empty α) x y) [y, x]).neighbs = _
    rw [add_neighb_empty_of_ne h]
    show (TFT.add_neighb (⟨[x, y], [(0, 1)]⟩ : Topology α) y x).neighbs = _
    rw [add_neighb_back h]
    rfl
  refine ⟨hmain, ?_⟩
  rw [hmain]
  decide

/-- C5 witness: the amended theorem evaluated at `x = 0`, `y = 1`. -/
theorem claim_C5_witness :
    (0 : Nat) ≠ 1
    ∧ ((TFT.add_chain (Topology.empty Nat) [0, 1, 0]).neighbs = [(0, 1), (0, 1)]
      ∧ ((TFT.add_chain (Topology.empty Nat) [0, 1, 0]).neighbs).toFinset
          = {(0, 1)}) :=
  ⟨by decide, claim_C5 0 1 (by decide)⟩

/-- C6: the state invariant — every stored pair is canonical (smaller index
first) and refers only to valid indices of `nodes` — is preserved by
`add_neighb` and by `add_chain`; moreover on already-present nodes,
`add_neighb(a, b)` and `add_neighb(b, a)` produce the identical state,
storing the same canonical pair. -/
theorem claim_C6 (t : Topology α) (a b : α) (c : List α) (h : TopInv t) :
    TopInv (TFT.add_neighb t a b)
    ∧ TopInv (TFT.add_chain t c)
    ∧ (a ∈ t.nodes → b ∈ t.nodes →
        TFT.add_neighb t a b = TFT.add_neighb t b a) := by
  refine ⟨TFT.TopInv_add_neighb h a b, TFT.TopInv_add_chain h c, ?_⟩
  intro ha hb
  rw [TFT.add_neighb_def, TFT.add_neighb_def, insertNode_of_mem ha,
    insertNode_of_mem hb, insertNode_of_mem ha, canonPair_comm]

/-- C6 witness: the theorem evaluated at the topology `⟨[0, 1], [(0, 1)]⟩`,
nodes `0`, `1` and chain `[1, 2]`. -/
theorem claim_C6_witness :
    TopInv (⟨[0, 1], [(0, 1)]⟩ : Topology Nat)
    ∧ (TopInv (TFT.add_neighb (⟨[0, 1], [(0, 1)]⟩ : Topology Nat) 0 1)
      ∧ TopInv (TFT.add_chain (⟨[0, 1], [(0, 1)]⟩ : Topology Nat) [1, 2])
      ∧ (0 ∈ (⟨[0, 1], [(0, 1)]⟩ : Topology Nat).nodes
          → 1 ∈ (⟨[0, 1], [(0, 1)]⟩ : Topology Nat).nodes
          → TFT.add_neighb (⟨[0, 1], [(0, 1)]⟩ : Topology Nat) 0 1
              = TFT.add_neighb (⟨[0, 1], [(0, 1)]⟩ : Topology Nat) 1 0)) :=
  ⟨by decide, claim_C6 ⟨[0, 1], [(0, 1)]⟩ 0 1 [1, 2] (by decide)⟩

/-- C7: the exporter writes the header `*Vertices N`, then one line
` k "label" ` per node in insertion order with `k` the zero-based index plus
one and the label written verbatim, then `*Edges`, then one line ` a  b `
per stored edge in insertion order with the stored (lower-first) indices
each plus one; the two-node one-edge example exports exactly the five lines
of the specification. -/
theorem claim_C7 :
    (∀ (t : Topology α) (f : α → String),
      write_Pajek t f =
        ("*Vertices " ++ toString t.nodes.length)
          :: ((List.enumFrom 0 t.nodes).map
                (fun p => " " ++ toString (p.1 + 1) ++ " \"" ++ f p.2 ++ "\" ")
            ++ "*Edges"
              :: t.neighbs.map
                  (fun p => " " ++ toString (p.1 + 1) ++ "  "
                    ++ toString (p.2 + 1) ++ " ")))
    ∧ write_Pajek (⟨["A", "B"], [(0, 1)]⟩ : Topology String) id =
        ["*Vertices 2", " 1 \"A\" ", " 2 \"B\" ", "*Edges", " 1  2 "] := by
  constructor
  · intro t f
    unfold write_Pajek
    rw [vertexLines_eq_map, edgeLines_eq_map]
  · decide

/-- C8 counterexample: `add_chain([0])` on the empty topology adds nothing —
the node `0` is not inserted, contrary to the claim that a single-node chain
contributes its node. -/
theorem claim_C8_counterexample :
    (TFT.add_chain (Topology.empty Nat) [0]).nodes = []
    ∧ ¬ 0 ∈ (TFT.add_chain (Topology.empty Nat) [0]).nodes := by
  decide

/-- C8 (amended): `add_chain([x])` changes neither `nodes` nor `edges` (the
consecutive-pair loop over a one-element collapsed chain has no iteration,
so the node is never inserted), and `add_chain([])` likewise changes
nothing. -/
theorem claim_C8 (t : Topology α) (x : α) :
    TFT.add_chain t [x] = t ∧ TFT.add_chain t [] = t :=
  ⟨rfl, rfl⟩

/-- C9: chain ingestion order is commutative up to indexing — ingesting `A`
then `B` into the empty topology yields the same node set and the same set
of node-level undirected edges (each stored pair read back as the unordered
pair of nodes at its indices) as ingesting `B` then `A`. -/
theorem claim_C9 (A B : List α) (d : α) :
    nodeFinset (TFT.add_chain (TFT.add_chain (Topology.empty α) A) B)
      = nodeFinset (TFT.add_chain (TFT.add_chain (Topology.empty α) B) A)
    ∧ edgeFinset (TFT.add_chain (TFT.add_chain (Topology.empty α) A) B) d
      = edgeFinset (TFT.add_chain (TFT.add_chain (Topology.empty α) B) A) d := by
  have hA : TopInv (TFT.add_chain (Topology.empty α) A) :=
    TFT.TopInv_add_chain TopInv_empty A
  have hB : TopInv (TFT.add_chain (Topology.empty α) B) :=
    TFT.TopInv_add_chain TopInv_empty B
  have hne : nodeFinset (Topology.empty α) = (∅ : Finset α) := rfl
  have hee : edgeFinset (Topology.empty α) d = (∅ : Finset (Finset α)) := rfl
  constructor
  · rw [TFT.nodeFinset_add_chain, TFT.nodeFinset_add_chain,
      TFT.nodeFinset_add_chain, TFT.nodeFinset_add_chain, hne,
      Finset.empty_union, Finset.empty_union, Finset.union_comm]
  · rw [TFT.edgeFinset_add_chain hA, TFT.edgeFinset_add_chain TopInv_empty,
      TFT.edgeFinset_add_chain hB, TFT.edgeFinset_add_chain TopInv_empty,
      hee, Finset.empty_union, Finset.empty_union, Finset.union_comm]

/-- C10: `query_node` returns the stable zero-based index of an equal
existing node (a valid index at which `nodes` holds that node) and returns
the not-found failure exactly when no equal node is present; the checked
edge-insertion — where both lookups may fail — never takes the failure
branch, because both nodes are inserted before they are indexed, so it
agrees with the total `add_neighb`. -/
theorem claim_C10 (t : Topology α) (n m a b : α)
    (h : n ∈ t.nodes) (hm : m ∉ t.nodes) :
    t.query_node n = some (t.nodes.indexOf n)
    ∧ t.nodes.indexOf n < t.nodes.length
    ∧ t.nodes.getD (t.nodes.indexOf n) m = n
    ∧ t.query_node m = none
    ∧ add_neighb_checked t a b = some (TFT.add_neighb t a b) := by
  refine ⟨query_node_of_mem h, indexOf_lt_of_mem h, getD_indexOf h m,
    query_node_of_not_mem hm, ?_⟩
  show (match
      (⟨insertNode (insertNode t.nodes a) b, t.neighbs⟩ : Topology α).query_node a,
      (⟨insertNode (insertNode t.nodes a) b, t.neighbs⟩ : Topology α).query_node b with
    | some idx1, some idx2 =>
        some (⟨insertNode (insertNode t.nodes a) b,
          t.neighbs ++ [canonPair idx1 idx2]⟩ : Topology α)
    | _, _ => none) = some (TFT.add_neighb t a b)
  rw [query_node_of_mem (t := ⟨insertNode (insertNode t.nodes a) b, t.neighbs⟩)
      (TFT.a_mem_insert2 t.nodes a b),
    query_node_of_mem (t := ⟨insertNode (insertNode t.nodes a) b, t.neighbs⟩)
      (TFT.b_mem_insert2 t.nodes a b)]
  rfl

/-- C10 witness: the theorem evaluated at the topology `⟨[5, 7], []⟩` with
present node `5`, absent node `9`, and inserted nodes `1`, `2`. -/
theorem claim_C10_witness :
    (5 ∈ (⟨[5, 7], []⟩ : Topology Nat).nodes)
    ∧ (9 ∉ (⟨[5, 7], []⟩ : Topology Nat).nodes)
    ∧ (Topology.query_node (⟨[5, 7], []⟩ : Topology Nat) 5
        = some ((⟨[5, 7], []⟩ : Topology Nat).nodes.indexOf 5)
      ∧ (⟨[5, 7], []⟩ : Topology Nat).nodes.indexOf 5
          < (⟨[5, 7], []⟩ : Topology Nat).nodes.length
      ∧ (⟨[5, 7], []⟩ : Topology Nat).nodes.getD
          ((⟨[5, 7], []⟩ : Topology Nat).nodes.indexOf 5) 9 = 5
      ∧ Topology.query_node (⟨[5, 7], []⟩ : Topology Nat) 9 = none
      ∧ add_neighb_checked (⟨[5, 7], []⟩ : Topology Nat) 1 2
          = some (TFT.add_neighb (⟨[5, 7], []⟩ : Topology Nat) 1 2)) :=
  ⟨by decide, by decide, claim_C10 ⟨[5, 7], []⟩ 5 9 1 2 (by decide) (by decide)⟩
